import Mathlib

/- Formal model of the roster repository: the file package (roster index,
   status snapshots, comparison policy, ignore patterns) and the walk
   package (traversal, worker classification, absentee resolution), plus
   the Take entry point. Filesystem and regular-expression effects are
   modelled explicitly: the checksum is an oracle from file path to a
   result, and the regular-expression engine is a parameter compiling a
   pattern string to a matcher. -/

/-- Matcher stands for a compiled regular expression, applied through
MatchString. -/
abbrev Matcher := String → Bool

/-- RegexCompile stands for the external regexp.Compile collaborator;
none models a compile error. -/
abbrev RegexCompile := String → Option Matcher

/-- ChecksumOracle models the Checksum function, an xxhash over the file
contents at a path, which can fail with an I/O error. -/
abbrev ChecksumOracle := String → Except String String

/-- splitSlash splits a character list on the path separator. -/
def splitSlash : List Char → List (List Char)
  | [] => [[]]
  | c :: r =>
    if c = '/' then [] :: splitSlash r
    else
      match splitSlash r with
      | [] => [[c]]
      | g :: gs => (c :: g) :: gs

/-- cleanComps resolves dot-dot components as in Go lexical path cleaning. -/
def cleanComps (rooted : Bool) : List String → List String → List String
  | acc, [] => acc.reverse
  | acc, c :: rest =>
    if c = ".." then
      match acc with
      | [] => cleanComps rooted (if rooted then [] else [".."]) rest
      | t :: ts =>
        if t = ".." then cleanComps rooted (c :: acc) rest
        else cleanComps rooted ts rest
    else cleanComps rooted (c :: acc) rest

/-- cleanPath models filepath.Clean for slash-separated paths. -/
def cleanPath (p : String) : String :=
  if p = "" then "." else
  let rooted := p.data.head? = some '/'
  let comps := ((splitSlash p.data).map String.mk).filter (fun c => c != "" && c != ".")
  let outs := cleanComps rooted [] comps
  let s := String.intercalate "/" outs
  if rooted then "/" ++ s
  else if s = "" then "." else s

/-- joinPath models filepath.Join of two elements. -/
def joinPath (a b : String) : String :=
  if a = "" then (if b = "" then "" else cleanPath b)
  else if b = "" then cleanPath a
  else cleanPath (a ++ "/" ++ b)

/-- trimLeading models strings.TrimPrefix. -/
def trimLeading (s pre : String) : String :=
  if pre.data.isPrefixOf s.data then String.mk (s.data.drop pre.data.length) else s

/-- basename models filepath.Base. -/
def basename (p : String) : String :=
  if p = "" then "." else
  let l := p.data.reverse.dropWhile (fun c => c == '/')
  if l = [] then "/"
  else String.mk ((l.takeWhile (fun c => c != '/')).reverse)

/-- dirname models filepath.Dir. -/
def dirname (p : String) : String :=
  cleanPath (String.mk ((p.data.reverse.dropWhile (fun c => c != '/')).reverse))

/-- backtickChar is the backtick rune marking literal ignore patterns. -/
def backtickChar : Char := Char.ofNat 96

/-- isSpecialChar lists the bytes escaped by regexp.QuoteMeta. -/
def isSpecialChar (c : Char) : Bool :=
  c == '\\' || c == '.' || c == '+' || c == '*' || c == '?' || c == '(' || c == ')' ||
  c == '|' || c == '[' || c == ']' || c == Char.ofNat 123 || c == Char.ofNat 125 ||
  c == '^' || c == '$'

/-- quoteMetaList escapes every special character with a backslash. -/
def quoteMetaList : List Char → List Char
  | [] => []
  | c :: r => if isSpecialChar c then '\\' :: c :: quoteMetaList r else c :: quoteMetaList r

/-- quoteMeta models regexp.QuoteMeta. -/
def quoteMeta (s : String) : String := String.mk (quoteMetaList s.data)

/-- isSubstringList decides whether the first list occurs contiguously in
the second. -/
def isSubstringList (n : List Char) : List Char → Bool
  | [] => n.isEmpty
  | h :: t => n.isPrefixOf (h :: t) || isSubstringList n t

/-- isSubstring decides whether needle occurs contiguously inside hay. -/
def isSubstring (needle hay : String) : Bool := isSubstringList needle.data hay.data

/-- Verify defines the file attributes recorded for indexed files and
used to identify changed files. -/
structure Verify where
  Fsize : Bool
  Perms : Bool
  Mtime : Bool
  Check : Bool
  deriving DecidableEq

/-- AllVerify is the Verify value with all attributes enabled. -/
def AllVerify : Verify := { Fsize := true, Perms := true, Mtime := true, Check := true }

/-- Status holds all verifiable attributes of an indexed file, in the
deletion-tracking variant of the file package. -/
structure Status where
  Fsize : Int
  Perms : String
  Mtime : String
  Check : String
  deriving DecidableEq

def StatusNoFsize : Int := -1

def StatusNoPerms : String := "(none)"

def StatusNoMtime : String := "(none)"

def StatusNoCheck : String := ""

/-- NoStatus is the default Status for files that have not been analyzed. -/
def NoStatus : Status :=
  { Fsize := StatusNoFsize, Perms := StatusNoPerms, Mtime := StatusNoMtime,
    Check := StatusNoCheck }

/-- Status.Equals compares two Status values for equality per Verify
settings. -/
def Status.Equals (s t : Status) (ver : Verify) : Bool :=
  (!ver.Fsize || s.Fsize == t.Fsize) &&
  (!ver.Perms || s.Perms == t.Perms) &&
  (!ver.Mtime || s.Mtime == t.Mtime) &&
  (!ver.Check || s.Check == t.Check)

/-- Status.Valid verifies the receiver is not equal to the unique
NoStatus value, using all Status attributes. -/
def Status.Valid (s : Status) : Bool := !(s.Equals NoStatus AllVerify)

/-- FileInfo models the os.FileInfo fields the roster reads; isRegular
models the mode having no os.ModeType bits. -/
structure FileInfo where
  size : Int
  modeString : String
  mtimeString : String
  isRegular : Bool
  deriving DecidableEq

/-- MakeStatus constructs a Status; it does not consider the Verify
settings and always analyzes all attributes of the file, including the
checksum. -/
def MakeStatus (chk : ChecksumOracle) (root relPath : String) (info : FileInfo) :
    Status × Option String :=
  match chk (joinPath root relPath) with
  | .error e => (NoStatus, some e)
  | .ok sum =>
    ({ Fsize := info.size, Perms := info.modeString, Mtime := info.mtimeString,
       Check := sum }, none)

/-- IgnoreDefault is the default ignore pattern list, covering VCS
metadata directories. -/
def IgnoreDefault : List String := ["\\.git", "\\.svn"]

/-- isBacktickLiteral tests the backtick-literal form: at least two
runes, the first and the last both backticks. -/
def isBacktickLiteral (s : String) : Bool :=
  match s.data with
  | [] => false
  | c :: rest =>
    match rest.getLast? with
    | none => false
    | some e => c == backtickChar && e == backtickChar

/-- literalBody strips the first and last rune of a backtick literal. -/
def literalBody (s : String) : String := String.mk ((s.data.drop 1).dropLast)

/-- compileOne models one iteration of Ignore.Compile: backtick literals
are regexp-quoted and compiled, everything else is compiled directly as
a regular expression. A Lean string is always valid UTF-8, so the
utf8.Valid check of the source never fails in this model. -/
def compileOne (compile : RegexCompile) (ign : String) : Option Matcher :=
  if isBacktickLiteral ign then compile (quoteMeta (literalBody ign))
  else compile ign

/-- ignoreCompile models Ignore.Compile over the whole pattern list; any
failing pattern fails the whole compilation. -/
def ignoreCompile (compile : RegexCompile) : List String → Option (List Matcher)
  | [] => some []
  | p :: rest =>
    match compileOne compile p with
    | none => none
    | some m =>
      match ignoreCompile compile rest with
      | none => none
      | some ms => some (m :: ms)

def RuntimeThreadsNoLimit : Int := 0

def RuntimeDepthNoLimit : Int := 0

/-- Runtime fine-tunes the construction and verification operations. -/
structure Runtime where
  Thr : Int
  Dep : Int
  deriving DecidableEq

/-- Config holds the roster configuration: runtime settings, verify
attributes, ignore list and the compiled ignore expressions. -/
structure Config where
  Rt : Runtime
  Ver : Verify
  Ign : List String
  ire : List Matcher

/-- Roster is the in-memory roster: configuration, member index and the
pending-absence set. Go maps are modelled as association lists with at
most one entry per key. -/
structure Roster where
  path : String
  Cfg : Config
  Mem : List (String × Status)
  abs : List String

/-- New constructs a default roster. When the roster file does not exist
the default ignore list is installed and compiled; the source discards
the compile error, which never occurs on the default patterns. -/
def New (compile : RegexCompile) (fileExists : Bool) (filePath : String) : Roster :=
  let ign := if fileExists then ([] : List String) else IgnoreDefault
  let ire := if fileExists then ([] : List Matcher)
             else (ignoreCompile compile IgnoreDefault).getD []
  { path := filePath,
    Cfg := { Rt := { Thr := RuntimeThreadsNoLimit, Dep := RuntimeDepthNoLimit },
             Ver := { Fsize := true, Perms := false, Mtime := false, Check := true },
             Ign := ign, ire := ire },
    Mem := [], abs := [] }

/-- DirStat models the os.Stat outcome for the roster file's directory. -/
structure DirStat where
  found : Bool
  isDir : Bool

/-- RosterDoc models the successfully unmarshalled YAML document: the
configuration and member values held by the Roster after yaml.Unmarshal
has populated it. -/
structure RosterDoc where
  Thr : Int
  Dep : Int
  Ver : Verify
  Ign : List String
  Mem : List (String × Status)

/-- RosterFile models the os.Stat, read and unmarshal outcomes for the
roster file itself. -/
inductive RosterFile where
  | missing
  | notRegular
  | unreadable
  | badYaml
  | doc (d : RosterDoc)

/-- seedAbsent initializes the absentee list from the member index,
skipping members that match a compiled ignore pattern. -/
def seedAbsent (ms : List Matcher) (mem : List (String × Status)) : List String :=
  (mem.map Prod.fst).filter (fun p => !(ms.any (fun m => m p)))

/-- Parse models file.Parse: directory checks, the default roster on a
missing file, and otherwise compilation of the ignore patterns followed
by the seeding of the absentee list. -/
def Parse (compile : RegexCompile) (dir : DirStat) (f : RosterFile) (filePath : String) :
    Except String Roster :=
  if dir.found = false then .error ("directory not found: " ++ dirname filePath)
  else if dir.isDir = false then .error ("invalid file path: " ++ dirname filePath)
  else
    match f with
    | .missing => .ok (New compile false filePath)
    | .notRegular => .error ("not a regular file: " ++ filePath)
    | .unreadable => .error "read error"
    | .badYaml => .error "yaml unmarshal error"
    | .doc d =>
      match ignoreCompile compile d.Ign with
      | none => .error "invalid ignore pattern"
      | some ms =>
        .ok { path := filePath,
              Cfg := { Rt := { Thr := d.Thr, Dep := d.Dep }, Ver := d.Ver,
                       Ign := d.Ign, ire := ms },
              Mem := d.Mem,
              abs := seedAbsent ms d.Mem }

/-- Roster.statusOf models the Status method on Roster: index lookup
returning the stored Status and a presence flag, or NoStatus and false. -/
def Roster.statusOf (ros : Roster) (filePath : String) : Status × Bool :=
  match List.lookup filePath ros.Mem with
  | some st => (st, true)
  | none => (NoStatus, false)

/-- Roster.Keep decides whether a path is an indexing candidate: regular
files whose basename differs from the roster file's and which match no
ignore pattern. -/
def Roster.Keep (ros : Roster) (filePath : String) (info : FileInfo) : Bool :=
  if !info.isRegular then false
  else if basename filePath == basename ros.path then false
  else if ros.Cfg.ire.any (fun m => m filePath) then false
  else true

/-- Roster.Changed looks up the previous Status, builds the fresh Status
and classifies the file as new or changed, forwarding the construction
error. -/
def Roster.Changed (ros : Roster) (chk : ChecksumOracle) (root relPath : String)
    (info : FileInfo) : Bool × Bool × Status × Option String :=
  let so := ros.statusOf relPath
  let ms := MakeStatus chk root relPath info
  if so.2 && so.1.Valid then (false, !(so.1.Equals ms.1 ros.Cfg.Ver), ms.1, ms.2)
  else (true, false, ms.1, ms.2)

/-- insertMem models Go map assignment on the member index: replace the
entry when the key is present, otherwise append it. -/
def insertMem : List (String × Status) → String → Status → List (String × Status)
  | [], p, st => [(p, st)]
  | e :: r, p, st => if e.1 = p then (p, st) :: r else e :: insertMem r p st

/-- Roster.Update stores a valid Status in the member index and removes
the path from the pending-absence set; an invalid Status is rejected
before any mutation. -/
def Roster.Update (ros : Roster) (filePath : String) (stat : Status) :
    Roster × Option String :=
  if !stat.Valid then (ros, some "invalid member status")
  else
    ({ ros with Mem := insertMem ros.Mem filePath stat,
                abs := ros.abs.filter (fun q => q != filePath) }, none)

/-- Roster.Expel removes a path from the member index. -/
def Roster.Expel (ros : Roster) (filePath : String) : Roster :=
  { ros with Mem := ros.Mem.filter (fun e => e.1 != filePath) }

/-- Roster.Absentees lists the paths remaining in the pending-absence set. -/
def Roster.Absentees (ros : Roster) : List String := ros.abs

/-- WalkItem is one event of the filepath.Walk traversal: a visited
entry, or a traversal error handed to the walk function. -/
inductive WalkItem where
  | entry (path : String) (info : FileInfo)
  | fail (e : String)

/-- filepathWalk models filepath.Walk with the walk function of the
source: entries are forwarded until the first traversal error, which
aborts the walk and becomes its return value. The source discards this
return value. -/
def filepathWalk : List WalkItem → List (String × FileInfo) × Option String
  | [] => ([], none)
  | .entry p i :: rest =>
    let r := filepathWalk rest
    ((p, i) :: r.1, r.2)
  | .fail e :: _ => ([], some e)

/-- entriesBeforeFail is the traversal truncated at the first error. -/
def entriesBeforeFail : List WalkItem → List WalkItem
  | [] => []
  | .entry p i :: rest => .entry p i :: entriesBeforeFail rest
  | .fail _ :: _ => []

/-- relOf computes the worker-visible relative path of a visited file,
as the producer does with strings.TrimPrefix of the cleaned root. -/
def relOf (root path : String) : String := trimLeading path (cleanPath root ++ "/")

/-- dispatchList is the list of candidates the producer sends to the
worker queue: the visited entries, converted to relative paths and
filtered through Roster.Keep. Keep reads only the immutable roster
configuration, so filtering against the initial roster coincides with
the producer-time checks of the source. -/
def dispatchList (root : String) (ros : Roster) (fs : List WalkItem) :
    List (String × FileInfo) :=
  (((filepathWalk fs).1).map (fun e => (relOf root e.1, e.2))).filter
    (fun e => ros.Keep e.1 e.2)

/-- workerStep is the worker body for one dequeued candidate: classify
through Changed, update the index, and emit on the new or the modified
funnel; a Changed or Update error leaves the state untouched apart from
the printed diagnostic. -/
def workerStep (chk : ChecksumOracle) (root : String)
    (acc : Roster × List String × List String) (e : String × FileInfo) :
    Roster × List String × List String :=
  let r := acc.1.Changed chk root e.1 e.2
  match r.2.2.2 with
  | some _ => acc
  | none =>
    let u := acc.1.Update e.1 r.2.2.1
    match u.2 with
    | some _ => (u.1, acc.2.1, acc.2.2)
    | none =>
      if r.1 then (u.1, acc.2.1 ++ [e.1], acc.2.2)
      else if r.2.1 then (u.1, acc.2.1, acc.2.2 ++ [e.1])
      else (u.1, acc.2.1, acc.2.2)

/-- Walk models walk.Walk: dispatch the kept entries, run the worker
bodies over the shared roster, then resolve absentees: the remaining
pending-absence set is the deleted list, and each of its members is
expelled from the index. The concurrent workers are modelled as a
sequential fold over the dispatched candidates, one interleaving of the
mutex-consistent schedules; the properties proved below are
per-candidate or set-membership facts that hold in this schedule. -/
def Walk (chk : ChecksumOracle) (root : String) (ros : Roster) (fs : List WalkItem) :
    Roster × List String × List String × List String :=
  let st := (dispatchList root ros fs).foldl (workerStep chk root) (ros, [], [])
  let del := st.1.Absentees
  let r2 := del.foldl Roster.Expel st.1
  (r2, st.2.1, st.2.2, del)

/-- insertSorted inserts a string into a sorted list. -/
def insertSorted (s : String) : List String → List String
  | [] => [s]
  | t :: r => if s ≤ t then s :: t :: r else t :: insertSorted s r

/-- sortStrings models sort.Strings. -/
def sortStrings (l : List String) : List String := l.foldr insertSorted []

/-- Take models roster.Take for a single directory: parse the roster
file next to the root, walk the tree, and hand out the three sorted
result sets; only a Parse failure produces an error. -/
def Take (compile : RegexCompile) (chk : ChecksumOracle) (dir : DirStat) (f : RosterFile)
    (fs : List WalkItem) (fname root : String) :
    Except String (List String × List String × List String) :=
  match Parse compile dir f (joinPath root fname) with
  | .error e => .error ("file.Parse(): " ++ e)
  | .ok ros =>
    let r := Walk chk root ros fs
    .ok (sortStrings r.2.1, sortStrings r.2.2.1, sortStrings r.2.2.2)

def StatusPermsMask : Nat := 0xFFFFFFFF

def StatusNoPermsB : Nat := 0xFFFFFFFF00000000

def StatusNoMtimeB : Int := -1

/-- StatusB is the earlier variant's Status, with fixed-width numeric
permission and modification-time encodings. -/
structure StatusB where
  Fsize : Int
  Perms : Nat
  Mtime : Int
  Check : String
  deriving DecidableEq

/-- NoStatusB is the earlier variant's Status for unanalyzed files. -/
def NoStatusB : StatusB :=
  { Fsize := StatusNoFsize, Perms := StatusNoPermsB, Mtime := StatusNoMtimeB,
    Check := StatusNoCheck }

/-- FileInfoB carries the numeric fields read by the earlier MakeStatus. -/
structure FileInfoB where
  size : Int
  mode : Nat
  mtimeUnix : Int

/-- MakeStatusEarly is the earlier variant's MakeStatus, which respects
the Verify settings: disabled fields keep their sentinel values and the
checksum is computed only when enabled. -/
def MakeStatusEarly (chk : ChecksumOracle) (filePath : String) (info : FileInfoB)
    (ver : Verify) : StatusB × Option String :=
  let fsize := if ver.Fsize then info.size else StatusNoFsize
  let perms := if ver.Perms then Nat.land info.mode StatusPermsMask else StatusNoPermsB
  let mtime := if ver.Mtime then info.mtimeUnix else StatusNoMtimeB
  if ver.Check then
    match chk filePath with
    | .error e => (NoStatusB, some e)
    | .ok sum => ({ Fsize := fsize, Perms := perms, Mtime := mtime, Check := sum }, none)
  else ({ Fsize := fsize, Perms := perms, Mtime := mtime, Check := StatusNoCheck }, none)

/-- unquoteMetaList removes one level of backslash escaping. -/
def unquoteMetaList : List Char → List Char
  | [] => []
  | '\\' :: c :: r => c :: unquoteMetaList r
  | c :: r => c :: unquoteMetaList r

/-- toyCompile is a concrete regular-expression engine used to witness
the engine-parametric theorems: every pattern compiles to a substring
matcher of its unescaped text. -/
def toyCompile : RegexCompile :=
  fun p => some (fun t => isSubstring (String.mk (unquoteMetaList p.data)) t)

/-- QuoteMetaCorrect captures the stdlib guarantee about regexp.QuoteMeta
composed with Compile and MatchString: a quoted pattern always compiles,
and its matcher accepts exactly the strings containing the original text
as a contiguous substring. -/
def QuoteMetaCorrect (compile : RegexCompile) : Prop :=
  ∀ s : String, ∃ m : Matcher, compile (quoteMeta s) = some m ∧
    ∀ t : String, m t = isSubstring s t

/-- chkOKW is a checksum oracle that always succeeds, for concrete runs. -/
def chkOKW : ChecksumOracle := fun _ => .ok "abc"

/-- chkIOFailW is a checksum oracle that always fails with an I/O error,
for concrete runs. -/
def chkIOFailW : ChecksumOracle := fun _ => .error "io"

/-- infoW is a concrete regular-file FileInfo. -/
def infoW : FileInfo :=
  { size := 7, modeString := "-rw-", mtimeString := "t", isRegular := true }

/-- infoSmallW is a concrete regular-file FileInfo matching stW. -/
def infoSmallW : FileInfo :=
  { size := 3, modeString := "-rw-r--r--", mtimeString := "2020", isRegular := true }

/-- stW is a concrete valid Status. -/
def stW : Status := { Fsize := 3, Perms := "-rw-r--r--", Mtime := "2020", Check := "aa" }

/-- dirOKW is the DirStat of an existing directory. -/
def dirOKW : DirStat := { found := true, isDir := true }

/-- verNoneW is the Verify policy with every attribute disabled. -/
def verNoneW : Verify := { Fsize := false, Perms := false, Mtime := false, Check := false }

/-- verSizeOnlyW is the Verify policy with only the file size enabled. -/
def verSizeOnlyW : Verify := { Fsize := true, Perms := false, Mtime := false, Check := false }

/-- rosNoCheckW is a concrete roster whose policy disables every
attribute, holding one indexed member. -/
def rosNoCheckW : Roster :=
  { path := "r/.roster.yml",
    Cfg := { Rt := { Thr := 0, Dep := 0 }, Ver := verNoneW, Ign := [], ire := [] },
    Mem := [("a", stW)], abs := ["a"] }

/-- dC2W is a concrete roster document with one member and no ignore
patterns. -/
def dC2W : RosterDoc := { Thr := 0, Dep := 0, Ver := AllVerify, Ign := [], Mem := [("a", stW)] }

/-- rosC2W is the roster Parse produces from dC2W. -/
def rosC2W : Roster :=
  { path := "r/.roster.yml",
    Cfg := { Rt := { Thr := 0, Dep := 0 }, Ver := AllVerify, Ign := [], ire := [] },
    Mem := [("a", stW)], abs := ["a"] }

/-- fsC2W is a concrete traversal visiting the single indexed file. -/
def fsC2W : List WalkItem := [.entry "r/a" infoSmallW]

/-- infoBW is a concrete FileInfoB for the earlier MakeStatus variant. -/
def infoBW : FileInfoB := { size := 7, mode := 420, mtimeUnix := 100 }

theorem stringMk_data (s : String) : String.mk s.data = s := rfl

theorem unquoteMetaList_cons_ne (c : Char) (r : List Char) (h : ¬ c = '\\') :
    unquoteMetaList (c :: r) = c :: unquoteMetaList r := by
  cases r <;> simp [unquoteMetaList, h]

theorem unquote_quote (l : List Char) : unquoteMetaList (quoteMetaList l) = l := by
  induction l with
  | nil => rfl
  | cons c r ih =>
    by_cases h : isSpecialChar c = true
    · simp only [quoteMetaList, h, if_true, unquoteMetaList, ih]
    · have hc : ¬ c = '\\' := by
        intro hc; subst hc; simp [isSpecialChar] at h
      simp only [quoteMetaList, h, if_false, Bool.false_eq_true]
      rw [unquoteMetaList_cons_ne c _ hc, ih]

/-- The toy engine satisfies the QuoteMeta contract assumed of the real
regular-expression engine. -/
theorem toyCompile_quoteMeta : QuoteMetaCorrect toyCompile := by
  intro s
  refine ⟨_, rfl, ?_⟩
  intro t
  show isSubstring (String.mk (unquoteMetaList (quoteMeta s).data)) t = isSubstring s t
  have : (quoteMeta s).data = quoteMetaList s.data := rfl
  rw [this, unquote_quote, stringMk_data]

theorem changed_err_eq (ros : Roster) (chk : ChecksumOracle) (root relPath : String)
    (info : FileInfo) :
    (ros.Changed chk root relPath info).2.2.2 = (MakeStatus chk root relPath info).2 := by
  unfold Roster.Changed
  dsimp only
  split <;> rfl

theorem changed_stat_eq (ros : Roster) (chk : ChecksumOracle) (root relPath : String)
    (info : FileInfo) :
    (ros.Changed chk root relPath info).2.2.1 = (MakeStatus chk root relPath info).1 := by
  unfold Roster.Changed
  dsimp only
  split <;> rfl

theorem foldl_preserve {α β : Type} (f : β → α → β) (P : β → Prop) :
    ∀ (l : List α) (b : β), P b → (∀ b a, a ∈ l → P b → P (f b a)) → P (l.foldl f b) := by
  intro l
  induction l with
  | nil => intro b hb _; exact hb
  | cons a r ih =>
    intro b hb hstep
    exact ih (f b a) (hstep b a (List.mem_cons_self a r) hb)
      (fun b' a' ha' hb' => hstep b' a' (List.mem_cons_of_mem a ha') hb')

theorem mem_filter_bne {l : List String} {p q : String} (hp : p ∈ l) (hne : q ≠ p) :
    p ∈ l.filter (fun x => x != q) := by
  refine List.mem_filter.mpr ⟨hp, ?_⟩
  simp [bne_iff_ne]
  exact fun h => hne h.symm

theorem update_fst_abs (ros : Roster) (q : String) (st : Status) {p : String}
    (hp : p ∈ ros.abs) (hne : q ≠ p) : p ∈ (ros.Update q st).1.abs := by
  unfold Roster.Update
  split
  · exact hp
  · exact mem_filter_bne hp hne

theorem workerStep_abs_mem (chk : ChecksumOracle) (root : String)
    (acc : Roster × List String × List String) (e : String × FileInfo) {p : String}
    (hp : p ∈ acc.1.abs) (hne : e.1 ≠ p) : p ∈ (workerStep chk root acc e).1.abs := by
  unfold workerStep
  dsimp only
  split
  · exact hp
  · split
    · exact update_fst_abs acc.1 e.1 _ hp hne
    · split
      · exact update_fst_abs acc.1 e.1 _ hp hne
      · split
        · exact update_fst_abs acc.1 e.1 _ hp hne
        · exact update_fst_abs acc.1 e.1 _ hp hne

theorem workerStep_notMem_new (chk : ChecksumOracle) (root : String)
    (acc : Roster × List String × List String) (e : String × FileInfo) {p : String}
    (hp : p ∉ acc.2.1) (hne : e.1 ≠ p) : p ∉ (workerStep chk root acc e).2.1 := by
  unfold workerStep
  dsimp only
  split
  · exact hp
  · split
    · exact hp
    · split
      · intro hmem
        rcases List.mem_append.mp hmem with h | h
        · exact hp h
        · exact hne (List.mem_singleton.mp h).symm
      · split <;> exact hp

theorem workerStep_notMem_mod (chk : ChecksumOracle) (root : String)
    (acc : Roster × List String × List String) (e : String × FileInfo) {p : String}
    (hp : p ∉ acc.2.2) (hne : e.1 ≠ p) : p ∉ (workerStep chk root acc e).2.2 := by
  unfold workerStep
  dsimp only
  split
  · exact hp
  · split
    · exact hp
    · split
      · exact hp
      · split
        · intro hmem
          rcases List.mem_append.mp hmem with h | h
          · exact hp h
          · exact hne (List.mem_singleton.mp h).symm
        · exact hp

theorem workerStep_err (chk : ChecksumOracle) (root : String)
    (acc : Roster × List String × List String) (e : String × FileInfo) {msg : String}
    (herr : chk (joinPath root e.1) = .error msg) : workerStep chk root acc e = acc := by
  have h2 : (acc.1.Changed chk root e.1 e.2).2.2.2 = some msg := by
    rw [changed_err_eq]
    unfold MakeStatus
    rw [herr]
  unfold workerStep
  dsimp only
  rw [h2]

theorem lookup_cons (p : String) (e : String × Status) (r : List (String × Status)) :
    List.lookup p (e :: r) = if p = e.1 then some e.2 else List.lookup p r := by
  obtain ⟨k, v⟩ := e
  by_cases h : p = k
  · simp [List.lookup, h]
  · have hb : (p == k) = false := by simp [h]
    simp [List.lookup, hb, h]

theorem lookup_filter_self (p : String) (m : List (String × Status)) :
    List.lookup p (m.filter (fun e => e.1 != p)) = none := by
  induction m with
  | nil => rfl
  | cons e r ih =>
    rw [List.filter_cons]
    by_cases h : e.1 = p
    · simp [h, bne_iff_ne, ih]
    · have hb : (e.1 != p) = true := by simp [bne_iff_ne, h]
      rw [hb]
      simp only [if_true]
      rw [lookup_cons]
      have hne : ¬ p = e.1 := fun hh => h hh.symm
      simp [hne, ih]

theorem lookup_none_filter (p : String) (f : String × Status → Bool)
    (m : List (String × Status)) (h : List.lookup p m = none) :
    List.lookup p (m.filter f) = none := by
  induction m with
  | nil => rfl
  | cons e r ih =>
    rw [lookup_cons] at h
    by_cases hp : p = e.1
    · simp [hp] at h
    · simp only [hp, if_false] at h
      cases hf : f e <;> simp [List.filter_cons, hf, lookup_cons, hp, ih h]

theorem lookup_expel_self (r : Roster) (p : String) :
    List.lookup p (r.Expel p).Mem = none := lookup_filter_self p r.Mem

theorem lookup_expel_none (r : Roster) (p q : String)
    (h : List.lookup p r.Mem = none) : List.lookup p (r.Expel q).Mem = none :=
  lookup_none_filter p _ r.Mem h

theorem lookup_expelAll (l : List String) (r : Roster) (p : String) (h : p ∈ l) :
    List.lookup p ((l.foldl Roster.Expel r).Mem) = none := by
  induction l generalizing r with
  | nil => cases h
  | cons a t ih =>
    by_cases hap : p = a
    · subst hap
      simp only [List.foldl]
      by_cases hpt : p ∈ t
      · exact ih (r.Expel p) hpt
      · have hbase : List.lookup p (r.Expel p).Mem = none := lookup_expel_self r p
        exact foldl_preserve Roster.Expel
          (fun ros => List.lookup p ros.Mem = none) t (r.Expel p) hbase
          (fun ros a' _ hros => lookup_expel_none ros p a' hros)
    · rcases List.mem_cons.mp h with h1 | h1
      · exact absurd h1 hap
      · exact ih (r.Expel a) h1

theorem lookup_isSome_mem_fst (p : String) (m : List (String × Status))
    (h : (List.lookup p m).isSome) : p ∈ m.map Prod.fst := by
  induction m with
  | nil => simp [List.lookup] at h
  | cons e r ih =>
    rw [lookup_cons] at h
    by_cases hp : p = e.1
    · simp [hp]
    · simp only [hp, if_false] at h
      exact List.mem_cons_of_mem _ (ih h)

theorem lookup_insertMem_self (m : List (String × Status)) (p : String) (st : Status) :
    List.lookup p (insertMem m p st) = some st := by
  induction m with
  | nil => simp [insertMem, lookup_cons]
  | cons e r ih =>
    by_cases h : e.1 = p
    · simp [insertMem, h, lookup_cons]
    · simp only [insertMem, h, if_false]
      rw [lookup_cons]
      have hne : ¬ p = e.1 := fun hh => h hh.symm
      simp [hne, ih]

theorem lookup_insertMem_ne (m : List (String × Status)) (p q : String) (st : Status)
    (h : q ≠ p) : List.lookup q (insertMem m p st) = List.lookup q m := by
  induction m with
  | nil => simp [insertMem, lookup_cons, h]
  | cons e r ih =>
    by_cases he : e.1 = p
    · simp only [insertMem, he, if_true]
      rw [lookup_cons, lookup_cons]
      rw [he]
      simp [h]
    · simp only [insertMem, he, if_false]
      rw [lookup_cons, lookup_cons]
      by_cases hq : q = e.1
      · simp [hq]
      · simp [hq, ih]

theorem equals_false_iff (a b : Status) (v : Verify) :
    a.Equals b v = false ↔
      (v.Fsize = true ∧ a.Fsize ≠ b.Fsize) ∨ (v.Perms = true ∧ a.Perms ≠ b.Perms) ∨
      (v.Mtime = true ∧ a.Mtime ≠ b.Mtime) ∨ (v.Check = true ∧ a.Check ≠ b.Check) := by
  obtain ⟨vf, vp, vm, vc⟩ := v
  cases vf <;> cases vp <;> cases vm <;> cases vc <;>
    simp [Status.Equals] <;> tauto

theorem makeStatus_ok_valid (chk : ChecksumOracle) (root relPath : String) (info : FileInfo)
    (hsz : 0 ≤ info.size) (hok : (MakeStatus chk root relPath info).2 = none) :
    (MakeStatus chk root relPath info).1.Valid = true := by
  unfold MakeStatus
  cases hc : chk (joinPath root relPath) with
  | error e =>
    unfold MakeStatus at hok
    rw [hc] at hok
    simp at hok
  | ok s =>
    have hne : info.size ≠ StatusNoFsize := by
      unfold StatusNoFsize; omega
    simp [Status.Valid, Status.Equals, NoStatus, AllVerify, hne]

theorem seedAbsent_mem (ms : List Matcher) (mem : List (String × Status)) (p : String)
    (hmem : (List.lookup p mem).isSome) (hign : ms.any (fun m => m p) = false) :
    p ∈ seedAbsent ms mem := by
  refine List.mem_filter.mpr ⟨lookup_isSome_mem_fst p mem hmem, ?_⟩
  simp [hign]

theorem parse_doc_ok (compile : RegexCompile) (d : RosterDoc) (fp : String)
    (ms : List Matcher) (hc : ignoreCompile compile d.Ign = some ms) :
    Parse compile dirOKW (.doc d) fp =
      .ok { path := fp,
            Cfg := { Rt := { Thr := d.Thr, Dep := d.Dep }, Ver := d.Ver,
                     Ign := d.Ign, ire := ms },
            Mem := d.Mem,
            abs := seedAbsent ms d.Mem } := by
  simp [Parse, dirOKW, hc]

theorem filepathWalk_entries_mem (fs : List WalkItem) :
    ∀ q i, (q, i) ∈ (filepathWalk fs).1 → WalkItem.entry q i ∈ fs := by
  induction fs with
  | nil => intro q i h; simp [filepathWalk] at h
  | cons item rest ih =>
    intro q i h
    cases item with
    | entry a b =>
      simp only [filepathWalk] at h
      rcases List.mem_cons.mp h with h1 | h1
      · obtain ⟨rfl, rfl⟩ := Prod.mk.injEq .. ▸ h1
        exact List.mem_cons_self _ _
      · exact List.mem_cons_of_mem _ (ih q i h1)
    | fail e => simp [filepathWalk] at h

theorem dispatchList_fst_ne (root : String) (ros : Roster) (fs : List WalkItem) (p : String)
    (h : ∀ q i, WalkItem.entry q i ∈ fs → relOf root q ≠ p) :
    ∀ e ∈ dispatchList root ros fs, e.1 ≠ p := by
  intro e he
  unfold dispatchList at he
  obtain ⟨he1, _⟩ := List.mem_filter.mp he
  obtain ⟨⟨q, i⟩, hqi, rfl⟩ := List.mem_map.mp he1
  exact h q i (filepathWalk_entries_mem fs q i hqi)

theorem filepathWalk_truncate (fs : List WalkItem) :
    (filepathWalk (entriesBeforeFail fs)).1 = (filepathWalk fs).1 := by
  induction fs with
  | nil => rfl
  | cons item rest ih =>
    cases item with
    | entry p i => simp [entriesBeforeFail, filepathWalk, ih]
    | fail e => simp [entriesBeforeFail, filepathWalk]

/-- C5 counterexample: a Status whose only measured field is the
checksum is Valid (the code tests against all attributes), yet under an
active policy comparing only the file size it does NOT differ from
NoStatus — refuting that validity is relative to the active policy. -/
theorem valid_not_policy_relative_cex :
    Status.Valid { Fsize := -1, Perms := "(none)", Mtime := "(none)", Check := "x" } = true ∧
    Status.Equals { Fsize := -1, Perms := "(none)", Mtime := "(none)", Check := "x" }
      NoStatus { Fsize := true, Perms := false, Mtime := false, Check := false } = true := by
  constructor
  · decide
  · decide

/-- C5 (amended): the validity test used during classification holds iff
the snapshot differs from the all-sentinel NoStatus under the all-fields
policy — i.e. at least one of the four fields, policy-enabled or not,
was measured; it is not relative to the active ComparisonPolicy. -/
theorem valid_iff_some_field_measured (s : Status) :
    s.Valid = true ↔
      (s.Fsize ≠ StatusNoFsize ∨ s.Perms ≠ StatusNoPerms ∨
       s.Mtime ≠ StatusNoMtime ∨ s.Check ≠ StatusNoCheck) := by
  simp [Status.Valid, Status.Equals, NoStatus, AllVerify, StatusNoFsize, StatusNoPerms,
        StatusNoMtime, StatusNoCheck]
  tauto

/-- C6 counterexample: the roster Parse returns for a missing roster
file has filesize and checksum verification enabled but permissions and
modification time DISABLED, refuting that all four fields are enabled. -/
theorem parse_missing_verify_not_all_cex :
    Parse toyCompile dirOKW .missing "d/.roster.yml" =
      .ok (New toyCompile false "d/.roster.yml") ∧
    (New toyCompile false "d/.roster.yml").Cfg.Ver ≠ AllVerify ∧
    (New toyCompile false "d/.roster.yml").Cfg.Ver.Perms = false ∧
    (New toyCompile false "d/.roster.yml").Cfg.Ver.Mtime = false := by
  refine ⟨rfl, by decide, rfl, rfl⟩

/-- C6 (amended): when the directory exists but the roster file does
not, Parse returns without error the default roster: empty member
index, Verify enabling filesize and checksum but disabling permissions
and modification time, thread count 0 (host parallelism), and the
built-in default ignore list excluding VCS metadata directories. -/
theorem parse_missing_defaults (compile : RegexCompile) (fp : String) :
    Parse compile dirOKW .missing fp = .ok (New compile false fp) ∧
    (New compile false fp).Mem = [] ∧
    (New compile false fp).Cfg.Ver =
      { Fsize := true, Perms := false, Mtime := false, Check := true } ∧
    (New compile false fp).Cfg.Rt.Thr = RuntimeThreadsNoLimit ∧
    (New compile false fp).Cfg.Ign = IgnoreDefault ∧
    IgnoreDefault = ["\\.git", "\\.svn"] ∧
    (New compile false fp).abs = [] := by
  exact ⟨rfl, rfl, rfl, rfl, rfl, rfl, rfl⟩

/-- C10: Update rejects an invalid Status with an error and leaves the
whole roster unchanged; for a valid Status it inserts or replaces the
index entry at the path, leaves every other entry alone, removes the
path from the pending-absence set and keeps all other absentees. -/
theorem update_contract (ros : Roster) (p : String) (stat : Status) :
    (stat.Valid = false →
      (ros.Update p stat).2 = some "invalid member status" ∧
      (ros.Update p stat).1 = ros) ∧
    (stat.Valid = true →
      (ros.Update p stat).2 = none ∧
      List.lookup p (ros.Update p stat).1.Mem = some stat ∧
      (∀ q, q ≠ p → List.lookup q (ros.Update p stat).1.Mem = List.lookup q ros.Mem) ∧
      p ∉ (ros.Update p stat).1.abs ∧
      (∀ q, q ≠ p → ((q ∈ (ros.Update p stat).1.abs) ↔ q ∈ ros.abs))) := by
  constructor
  · intro h
    unfold Roster.Update
    rw [h]
    simp
  · intro h
    have hU : ros.Update p stat =
        ({ ros with Mem := insertMem ros.Mem p stat,
                    abs := ros.abs.filter (fun q => q != p) }, none) := by
      unfold Roster.Update
      rw [h]
      rfl
    rw [hU]
    refine ⟨rfl, ?_, ?_, ?_, ?_⟩
    · exact lookup_insertMem_self ros.Mem p stat
    · intro q hq
      exact lookup_insertMem_ne ros.Mem p q stat hq
    · intro hmem
      obtain ⟨_, hcon⟩ := List.mem_filter.mp hmem
      simp [bne_iff_ne] at hcon
    · intro q hq
      constructor
      · intro hmem
        exact (List.mem_filter.mp hmem).1
      · intro hmem
        exact mem_filter_bne hmem (fun hh => hq hh.symm)

/-- C10 witness: update_contract applied to a concrete roster and a
concrete valid Status. -/
theorem update_contract_witness :
    (rosC2W.Update "b" stW).2 = none ∧
    List.lookup "b" (rosC2W.Update "b" stW).1.Mem = some stW ∧
    "b" ∉ (rosC2W.Update "b" stW).1.abs := by
  have h := (update_contract rosC2W "b" stW).2 (by decide)
  exact ⟨h.1, h.2.1, h.2.2.2.1⟩

/-- C4 counterexample: the MakeStatus used by the scan takes no policy
at all; under a policy with permissions disabled it still records the
permission string (not the sentinel), and with checksum disabled the
checksum is still computed — its I/O failure surfaces as an error from
Changed even though the roster policy disables every attribute. -/
theorem makestatus_ignores_policy_cex :
    verNoneW.Check = false ∧
    verNoneW.Perms = false ∧
    rosNoCheckW.Cfg.Ver = verNoneW ∧
    (MakeStatus chkOKW "r" "a" infoW).1.Perms = "-rw-" ∧
    (MakeStatus chkOKW "r" "a" infoW).1.Perms ≠ StatusNoPerms ∧
    (MakeStatus chkIOFailW "r" "a" infoW).2 = some "io" ∧
    (rosNoCheckW.Changed chkIOFailW "r" "a" infoSmallW).2.2.2 = some "io" := by
  refine ⟨rfl, rfl, rfl, rfl, by decide, rfl, rfl⟩

/-- C4 (amended): the snapshot construction used by the scan ignores the
ComparisonPolicy entirely: it always measures all four attributes and
always computes the checksum, whose error surfaces regardless of any
policy; only the earlier variant's MakeStatus leaves policy-disabled
fields at their sentinels and never computes the checksum when the
checksum field is disabled (its result does not depend on the checksum
oracle at all). -/
theorem makestatus_policy_contrast (chk chk' : ChecksumOracle) (root relPath fp : String)
    (info : FileInfo) (infoB : FileInfoB) (ver : Verify) (e sum : String) :
    (chk (joinPath root relPath) = .error e →
      (MakeStatus chk root relPath info).2 = some e) ∧
    (chk (joinPath root relPath) = .ok sum →
      (MakeStatus chk root relPath info).1 =
        { Fsize := info.size, Perms := info.modeString, Mtime := info.mtimeString,
          Check := sum }) ∧
    (ver.Check = false → MakeStatusEarly chk fp infoB ver = MakeStatusEarly chk' fp infoB ver) ∧
    (ver.Fsize = false → (MakeStatusEarly chk fp infoB ver).1.Fsize = StatusNoFsize) ∧
    (ver.Perms = false → (MakeStatusEarly chk fp infoB ver).1.Perms = StatusNoPermsB) ∧
    (ver.Mtime = false → (MakeStatusEarly chk fp infoB ver).1.Mtime = StatusNoMtimeB) ∧
    (ver.Check = false → (MakeStatusEarly chk fp infoB ver).1.Check = StatusNoCheck) := by
  refine ⟨?_, ?_, ?_, ?_, ?_, ?_, ?_⟩
  · intro h
    unfold MakeStatus
    rw [h]
  · intro h
    unfold MakeStatus
    rw [h]
  · intro h
    unfold MakeStatusEarly
    rw [h]
    rfl
  · intro h
    unfold MakeStatusEarly NoStatusB
    rw [h]
    cases hc : ver.Check
    · rfl
    · cases chk fp <;> rfl
  · intro h
    unfold MakeStatusEarly NoStatusB
    rw [h]
    cases hc : ver.Check
    · rfl
    · cases chk fp <;> rfl
  · intro h
    unfold MakeStatusEarly NoStatusB
    rw [h]
    cases hc : ver.Check
    · rfl
    · cases chk fp <;> rfl
  · intro h
    unfold MakeStatusEarly
    rw [h]
    rfl

/-- C4 witness: makestatus_policy_contrast at concrete inputs — the
scan's MakeStatus propagates the checksum failure, while the earlier
variant with checksum disabled is oblivious to the checksum oracle. -/
theorem makestatus_policy_contrast_witness :
    (MakeStatus chkIOFailW "r" "a" infoW).2 = some "io" ∧
    MakeStatusEarly chkIOFailW "f" infoBW verSizeOnlyW =
      MakeStatusEarly chkOKW "f" infoBW verSizeOnlyW ∧
    (MakeStatusEarly chkIOFailW "f" infoBW verSizeOnlyW).1.Perms = StatusNoPermsB := by
  have h := makestatus_policy_contrast chkIOFailW chkOKW "r" "a" "f" infoW infoBW
    verSizeOnlyW "io" "abc"
  exact ⟨h.1 rfl, h.2.2.1 rfl, h.2.2.2.2.1 rfl⟩

theorem changed_cases (ros : Roster) (chk : ChecksumOracle) (root relPath : String)
    (info : FileInfo) :
    (List.lookup relPath ros.Mem = none →
      ros.Changed chk root relPath info =
        (true, false, (MakeStatus chk root relPath info).1,
         (MakeStatus chk root relPath info).2)) ∧
    (∀ prev, List.lookup relPath ros.Mem = some prev → prev.Valid = false →
      ros.Changed chk root relPath info =
        (true, false, (MakeStatus chk root relPath info).1,
         (MakeStatus chk root relPath info).2)) ∧
    (∀ prev, List.lookup relPath ros.Mem = some prev → prev.Valid = true →
      ros.Changed chk root relPath info =
        (false, !(prev.Equals (MakeStatus chk root relPath info).1 ros.Cfg.Ver),
         (MakeStatus chk root relPath info).1, (MakeStatus chk root relPath info).2)) := by
  refine ⟨?_, ?_, ?_⟩
  · intro h
    unfold Roster.Changed Roster.statusOf
    rw [h]
    rfl
  · intro prev h hv
    unfold Roster.Changed Roster.statusOf
    rw [h]
    dsimp only
    rw [hv]
    rfl
  · intro prev h hv
    unfold Roster.Changed Roster.statusOf
    rw [h]
    dsimp only
    rw [hv]
    rfl

/-- C1: the worker classification — Changed marks a candidate new
exactly when the index holds no prior valid entry for its relative
path; with a prior valid entry it is not new, and it is changed iff the
fresh Status differs from the stored Status on at least one
Verify-enabled attribute field, else unchanged. -/
theorem changed_classifies_new_and_changed (ros : Roster) (chk : ChecksumOracle)
    (root relPath : String) (info : FileInfo) :
    ((ros.Changed chk root relPath info).1 = true ↔
      ¬ ∃ prev, List.lookup relPath ros.Mem = some prev ∧ prev.Valid = true) ∧
    (∀ prev, List.lookup relPath ros.Mem = some prev → prev.Valid = true →
      (ros.Changed chk root relPath info).1 = false ∧
      ((ros.Changed chk root relPath info).2.1 = true ↔
        prev.Equals (ros.Changed chk root relPath info).2.2.1 ros.Cfg.Ver = false)) ∧
    (∀ a b : Status, a.Equals b ros.Cfg.Ver = false ↔
      (ros.Cfg.Ver.Fsize = true ∧ a.Fsize ≠ b.Fsize) ∨
      (ros.Cfg.Ver.Perms = true ∧ a.Perms ≠ b.Perms) ∨
      (ros.Cfg.Ver.Mtime = true ∧ a.Mtime ≠ b.Mtime) ∨
      (ros.Cfg.Ver.Check = true ∧ a.Check ≠ b.Check)) := by
  obtain ⟨hnone, hinvalid, hvalid⟩ := changed_cases ros chk root relPath info
  refine ⟨?_, ?_, fun a b => equals_false_iff a b ros.Cfg.Ver⟩
  · cases hl : List.lookup relPath ros.Mem with
    | none =>
      rw [hnone hl]
      simp [hl]
    | some prev =>
      cases hv : prev.Valid with
      | false =>
        rw [hinvalid prev hl hv]
        simp only [true_iff]
        rintro ⟨p', hp', hv'⟩
        injection hp' with hpe
        rw [← hpe] at hv'
        rw [hv] at hv'
        exact Bool.false_ne_true hv'
      | true =>
        rw [hvalid prev hl hv]
        simp only [Bool.false_eq_true, false_iff, not_not]
        exact ⟨prev, rfl, hv⟩
  · intro prev hl hv
    rw [hvalid prev hl hv]
    refine ⟨rfl, ?_⟩
    simp

/-- C1 witness: changed_classifies_new_and_changed at a concrete roster
holding a valid entry for the path: the candidate is not new, and it is
changed because the fresh size differs from the stored one. -/
theorem changed_classifies_witness :
    (rosC2W.Changed chkOKW "r" "a" infoW).1 = false ∧
    (rosC2W.Changed chkOKW "r" "a" infoW).2.1 = true := by
  have h := (changed_classifies_new_and_changed rosC2W chkOKW "r" "a" infoW).2.1
    stW (by decide) (by decide)
  exact ⟨h.1, h.2.mpr (by decide)⟩

/-- C9: Ignore.Compile treats a pattern of at least two runes whose
first and last runes are backticks as a literal string match — the
interior is regexp-quoted, and under the QuoteMeta contract of the
engine the resulting matcher accepts exactly the paths containing the
interior as a contiguous substring; every other pattern is handed to
the engine as a regular expression; and a pattern list that fails to
compile makes Parse return an error, before any traversal can begin. -/
theorem ignore_compile_contract (compile : RegexCompile) (hq : QuoteMetaCorrect compile)
    (pat : String) :
    (isBacktickLiteral pat = true →
      ∃ m, compileOne compile pat = some m ∧
        ∀ t, m t = isSubstring (literalBody pat) t) ∧
    (isBacktickLiteral pat = false → compileOne compile pat = compile pat) ∧
    (∀ (d : RosterDoc) (fp : String), ignoreCompile compile d.Ign = none →
      Parse compile dirOKW (.doc d) fp = .error "invalid ignore pattern") := by
  refine ⟨?_, ?_, ?_⟩
  · intro h
    obtain ⟨m, hm, hmt⟩ := hq (literalBody pat)
    refine ⟨m, ?_, hmt⟩
    unfold compileOne
    rw [h]
    exact hm
  · intro h
    unfold compileOne
    rw [h]
    rfl
  · intro d fp hnone
    simp [Parse, dirOKW, hnone]

/-- C9 witness: ignore_compile_contract for the toy engine on a
concrete backtick-literal pattern whose interior contains a regex
metacharacter: the matcher finds the interior literally as a substring
and does not treat the dot as a wildcard. -/
theorem ignore_compile_contract_witness :
    ∃ m, compileOne toyCompile "`a.b`" = some m ∧
      m "xa.by" = true ∧ m "aab" = false := by
  obtain ⟨m, hm, ht⟩ :=
    (ignore_compile_contract toyCompile toyCompile_quoteMeta "`a.b`").1 (by decide)
  refine ⟨m, hm, ?_, ?_⟩
  · rw [ht]
    decide
  · rw [ht]
    decide

/-- C8: per dispatched candidate, the worker body appends the path to
the new result exactly when processing succeeded and the file was
classified new, appends it to the modified result exactly when
processing succeeded and it was classified changed (and not new), and
never appends to both; unchanged and error candidates emit nothing. The
hypothesis 0 ≤ size holds of every real regular file and makes the
index update succeed. -/
theorem worker_emission_exclusive (chk : ChecksumOracle) (root : String) (ros : Roster)
    (nw md : List String) (relPath : String) (info : FileInfo) (hsz : 0 ≤ info.size) :
    ((workerStep chk root (ros, nw, md) (relPath, info)).2.1 =
      if (ros.Changed chk root relPath info).2.2.2 = none ∧
         (ros.Changed chk root relPath info).1 = true
      then nw ++ [relPath] else nw) ∧
    ((workerStep chk root (ros, nw, md) (relPath, info)).2.2 =
      if (ros.Changed chk root relPath info).2.2.2 = none ∧
         (ros.Changed chk root relPath info).1 = false ∧
         (ros.Changed chk root relPath info).2.1 = true
      then md ++ [relPath] else md) ∧
    ¬((workerStep chk root (ros, nw, md) (relPath, info)).2.1 ≠ nw ∧
      (workerStep chk root (ros, nw, md) (relPath, info)).2.2 ≠ md) := by
  cases herr : (ros.Changed chk root relPath info).2.2.2 with
  | some msg =>
    have hstep : workerStep chk root (ros, nw, md) (relPath, info) = (ros, nw, md) := by
      unfold workerStep
      dsimp only
      rw [herr]
    rw [hstep]
    refine ⟨by simp [herr], by simp [herr], ?_⟩
    intro hcon
    exact hcon.1 rfl
  | none =>
    have hv : (ros.Changed chk root relPath info).2.2.1.Valid = true := by
      rw [changed_stat_eq]
      refine makeStatus_ok_valid chk root relPath info hsz ?_
      rw [← changed_err_eq]
      exact herr
    have hu2 : (ros.Update relPath (ros.Changed chk root relPath info).2.2.1).2 = none := by
      unfold Roster.Update
      rw [hv]
      rfl
    cases hn : (ros.Changed chk root relPath info).1 with
    | true =>
      have hstep : workerStep chk root (ros, nw, md) (relPath, info) =
          ((ros.Update relPath (ros.Changed chk root relPath info).2.2.1).1,
           nw ++ [relPath], md) := by
        unfold workerStep
        dsimp only
        rw [herr]
        dsimp only
        rw [hu2]
        dsimp only
        rw [hn]
        rfl
      rw [hstep]
      refine ⟨by simp [herr, hn], by simp [hn], ?_⟩
      intro hcon
      exact hcon.2 rfl
    | false =>
      cases hc : (ros.Changed chk root relPath info).2.1 with
      | true =>
        have hstep : workerStep chk root (ros, nw, md) (relPath, info) =
            ((ros.Update relPath (ros.Changed chk root relPath info).2.2.1).1,
             nw, md ++ [relPath]) := by
          unfold workerStep
          dsimp only
          rw [herr]
          dsimp only
          rw [hu2]
          dsimp only
          rw [hn, hc]
          rfl
        rw [hstep]
        refine ⟨by simp [hn], by simp [herr, hn, hc], ?_⟩
        intro hcon
        exact hcon.1 rfl
      | false =>
        have hstep : workerStep chk root (ros, nw, md) (relPath, info) =
            ((ros.Update relPath (ros.Changed chk root relPath info).2.2.1).1, nw, md) := by
          unfold workerStep
          dsimp only
          rw [herr]
          dsimp only
          rw [hu2]
          dsimp only
          rw [hn, hc]
          rfl
        rw [hstep]
        refine ⟨by simp [hn], by simp [hc], ?_⟩
        intro hcon
        exact hcon.1 rfl

/-- C8 witness: worker_emission_exclusive on a concrete new file — the
path is appended to the new result and the modified result is left
alone. -/
theorem worker_emission_exclusive_witness :
    (workerStep chkOKW "r" (New toyCompile false "r/.roster.yml", [], []) ("b", infoW)).2.1 =
      [] ++ ["b"] ∧
    (workerStep chkOKW "r" (New toyCompile false "r/.roster.yml", [], []) ("b", infoW)).2.2 =
      [] := by
  have h := worker_emission_exclusive chkOKW "r" (New toyCompile false "r/.roster.yml")
    [] [] "b" infoW (by decide)
  refine ⟨?_, ?_⟩
  · rw [h.1]
    decide
  · rw [h.2.1]
    decide

theorem walk_error_path (chk : ChecksumOracle) (root p msg : String) (ros : Roster)
    (fs : List WalkItem) (habs : p ∈ ros.abs)
    (herr : chk (joinPath root p) = .error msg) :
    p ∈ (Walk chk root ros fs).2.2.2 ∧
    p ∉ (Walk chk root ros fs).2.1 ∧
    p ∉ (Walk chk root ros fs).2.2.1 ∧
    List.lookup p (Walk chk root ros fs).1.Mem = none := by
  have hinv : (fun acc : Roster × List String × List String =>
      p ∈ acc.1.abs ∧ p ∉ acc.2.1 ∧ p ∉ acc.2.2)
      ((dispatchList root ros fs).foldl (workerStep chk root) (ros, [], [])) := by
    refine foldl_preserve (workerStep chk root)
      (fun acc => p ∈ acc.1.abs ∧ p ∉ acc.2.1 ∧ p ∉ acc.2.2)
      (dispatchList root ros fs) (ros, [], []) ⟨habs, by simp, by simp⟩ ?_
    intro b a _ hb
    by_cases hap : a.1 = p
    · have herr2 : chk (joinPath root a.1) = .error msg := by rw [hap]; exact herr
      rw [workerStep_err chk root b a herr2]
      exact hb
    · exact ⟨workerStep_abs_mem chk root b a hb.1 hap,
        workerStep_notMem_new chk root b a hb.2.1 hap,
        workerStep_notMem_mod chk root b a hb.2.2 hap⟩
  unfold Walk Roster.Absentees
  dsimp only
  exact ⟨hinv.1, hinv.2.1, hinv.2.2, lookup_expelAll _ _ p hinv.1⟩

theorem walk_absent_path (chk : ChecksumOracle) (root p : String) (ros : Roster)
    (fs : List WalkItem) (habs : p ∈ ros.abs)
    (hnd : ∀ e ∈ dispatchList root ros fs, e.1 ≠ p) :
    p ∈ (Walk chk root ros fs).2.2.2 ∧
    List.lookup p (Walk chk root ros fs).1.Mem = none := by
  have hinv : (fun acc : Roster × List String × List String => p ∈ acc.1.abs)
      ((dispatchList root ros fs).foldl (workerStep chk root) (ros, [], [])) := by
    refine foldl_preserve (workerStep chk root) (fun acc => p ∈ acc.1.abs)
      (dispatchList root ros fs) (ros, [], []) habs ?_
    intro b a ha hb
    exact workerStep_abs_mem chk root b a hb (hnd a ha)
  unfold Walk Roster.Absentees
  dsimp only
  exact ⟨hinv, lookup_expelAll _ _ p hinv⟩

/-- C2 counterexample: a concrete scan in which the only indexed file is
still on disk but its checksum I/O fails — the per-file processing
errors, yet the path IS reported in the deleted result set (and even
expelled from the index), refuting that error paths are omitted from
the deleted set. -/
theorem error_path_reported_deleted_cex :
    Parse toyCompile dirOKW (.doc dC2W) "r/.roster.yml" = .ok rosC2W ∧
    (rosC2W.Changed chkIOFailW "r" "a" infoSmallW).2.2.2 = some "io" ∧
    (Walk chkIOFailW "r" rosC2W fsC2W).2.2.2 = ["a"] ∧
    List.lookup "a" (Walk chkIOFailW "r" rosC2W fsC2W).1.Mem = none := by
  exact ⟨rfl, rfl, rfl, rfl⟩

/-- C2 (amended): a candidate whose per-file processing fails while its
path was present in the Index at scan start remains in the
pending-absence set, and consequently it IS reported in the deleted
result set and its entry is expelled from the Index; it is omitted from
the new and modified result sets only. -/
theorem error_path_in_deleted_set (compile : RegexCompile) (chk : ChecksumOracle)
    (d : RosterDoc) (ms : List Matcher) (root fp p msg : String) (fs : List WalkItem)
    (hc : ignoreCompile compile d.Ign = some ms)
    (hmem : (List.lookup p d.Mem).isSome = true)
    (hign : ms.any (fun m => m p) = false)
    (herr : chk (joinPath root p) = .error msg) :
    ∀ ros, Parse compile dirOKW (.doc d) fp = .ok ros →
      p ∈ (Walk chk root ros fs).2.2.2 ∧
      p ∉ (Walk chk root ros fs).2.1 ∧
      p ∉ (Walk chk root ros fs).2.2.1 ∧
      List.lookup p (Walk chk root ros fs).1.Mem = none := by
  intro ros hros
  rw [parse_doc_ok compile d fp ms hc] at hros
  injection hros with h
  subst h
  exact walk_error_path chk root p msg _ fs (seedAbsent_mem ms d.Mem p hmem hign) herr

/-- C2 witness: error_path_in_deleted_set at the concrete scan of the
counterexample scenario. -/
theorem error_path_in_deleted_set_witness :
    "a" ∈ (Walk chkIOFailW "r" rosC2W fsC2W).2.2.2 ∧
    "a" ∉ (Walk chkIOFailW "r" rosC2W fsC2W).2.1 ∧
    "a" ∉ (Walk chkIOFailW "r" rosC2W fsC2W).2.2.1 := by
  have h := error_path_in_deleted_set toyCompile chkIOFailW dC2W [] "r" "r/.roster.yml"
    "a" "io" fsC2W rfl (by decide) rfl rfl rosC2W rfl
  exact ⟨h.1, h.2.1, h.2.2.1⟩

/-- C7: deletion symmetry — a path present in the Index at scan start,
matching no ignore pattern, and reached by no traversal entry (absent
from disk) appears in the deleted result set and is gone from the Index
after the scan. -/
theorem deletion_symmetry (compile : RegexCompile) (chk : ChecksumOracle)
    (d : RosterDoc) (ms : List Matcher) (root fp p : String) (fs : List WalkItem)
    (hc : ignoreCompile compile d.Ign = some ms)
    (hmem : (List.lookup p d.Mem).isSome = true)
    (hign : ms.any (fun m => m p) = false)
    (habsent : ∀ q i, WalkItem.entry q i ∈ fs → relOf root q ≠ p) :
    ∀ ros, Parse compile dirOKW (.doc d) fp = .ok ros →
      p ∈ (Walk chk root ros fs).2.2.2 ∧
      List.lookup p (Walk chk root ros fs).1.Mem = none := by
  intro ros hros
  rw [parse_doc_ok compile d fp ms hc] at hros
  injection hros with h
  subst h
  exact walk_absent_path chk root p _ fs (seedAbsent_mem ms d.Mem p hmem hign)
    (dispatchList_fst_ne root _ fs p habsent)

/-- C7 witness: deletion_symmetry on a concrete scan where the indexed
path a is never visited: it lands in the deleted set and leaves the
index. -/
theorem deletion_symmetry_witness :
    "a" ∈ (Walk chkOKW "r" rosC2W [WalkItem.entry "r/b" infoW]).2.2.2 ∧
    List.lookup "a" (Walk chkOKW "r" rosC2W [WalkItem.entry "r/b" infoW]).1.Mem = none := by
  refine deletion_symmetry toyCompile chkOKW dC2W [] "r" "r/.roster.yml" "a"
    [WalkItem.entry "r/b" infoW] rfl (by decide) rfl ?_ rosC2W rfl
  intro q i hqi
  rcases List.mem_singleton.mp hqi with h
  injection h with h1 h2
  subst h1
  decide

/-- C3 counterexample: a traversal that hits a filesystem error — the
error is produced by the filepath.Walk model but discarded by Walk:
Take returns ok with empty result sets instead of propagating it to the
caller. -/
theorem traversal_error_not_propagated_cex :
    (filepathWalk [WalkItem.fail "permission denied"]).2 = some "permission denied" ∧
    Take toyCompile chkOKW dirOKW .missing [WalkItem.fail "permission denied"]
      ".roster.yml" "r" = .ok ([], [], []) := by
  exact ⟨rfl, rfl⟩

/-- C3 (amended): a traversal error aborts the walk — entries after the
first error are never dispatched, so the scan behaves exactly as if the
traversal ended there — but the error is discarded rather than
propagated: Walk has no error result at all and Take reports ok
whenever Parse succeeded. -/
theorem walk_aborts_and_discards_error (compile : RegexCompile) (chk : ChecksumOracle)
    (dir : DirStat) (f : RosterFile) (root fname : String) (ros : Roster)
    (fs : List WalkItem) :
    Walk chk root ros fs = Walk chk root ros (entriesBeforeFail fs) ∧
    (Parse compile dir f (joinPath root fname) = .ok ros →
      Take compile chk dir f fs fname root =
        .ok (sortStrings (Walk chk root ros fs).2.1,
             sortStrings (Walk chk root ros fs).2.2.1,
             sortStrings (Walk chk root ros fs).2.2.2)) := by
  constructor
  · unfold Walk dispatchList
    rw [filepathWalk_truncate]
  · intro h
    unfold Take
    rw [h]

/-- C3 witness: walk_aborts_and_discards_error applied to a concrete
failing traversal with a successfully parsed default roster. -/
theorem walk_aborts_and_discards_error_witness :
    Take toyCompile chkOKW dirOKW .missing [WalkItem.fail "boom"] ".roster.yml" "r" =
      .ok (sortStrings (Walk chkOKW "r" (New toyCompile false (joinPath "r" ".roster.yml"))
             [WalkItem.fail "boom"]).2.1,
           sortStrings (Walk chkOKW "r" (New toyCompile false (joinPath "r" ".roster.yml"))
             [WalkItem.fail "boom"]).2.2.1,
           sortStrings (Walk chkOKW "r" (New toyCompile false (joinPath "r" ".roster.yml"))
             [WalkItem.fail "boom"]).2.2.2) :=
  (walk_aborts_and_discards_error toyCompile chkOKW dirOKW .missing "r" ".roster.yml"
    (New toyCompile false (joinPath "r" ".roster.yml")) [WalkItem.fail "boom"]).2 rfl
